import Mathlib

/-!
# Verification of the NetsBlox-vm project scheduler

Shallow embedding of `src/project.rs` (the two-level cooperative scheduler:
scripts with bounded context queues, entities with a rotating script cursor,
and the project-level entity rotation deque) together with the small parts of
the runtime it depends on.

The repository snapshot under `src/` contains only `project.rs` and the test
file `test/process.rs`.  The collaborating crates (`crate::runtime`,
`crate::process`, `crate::bytecode`, `netsblox_ast`) are not part of the
sources, so the definitions taken from them are modelled from the
specification and are marked as such in their doc comments.  In particular
`Script::step` is literally `unimplemented!()` in the source, so every
scheduler-level function is parametrised by the behaviour
`f : Script → StepType × Script` of the inner script step.

Rust's in-place mutation is rendered as explicit state passing: every method
taking `&mut self` becomes a function returning the updated value.  `VecDeque`
is a `List` with the front at the head, `SlotMap` is an append-only list of
`Option` slots whose keys are indices.
-/

/-- Scheduling hint returned by a step.  `src/project.rs` matches exhaustively
on `Normal` and `Yield` (lines 65-68 and 158-161), so those are the variants
of the type at this snapshot. -/
inductive StepType where
  | Normal
  | Yield
deriving DecidableEq, Inhabited

/-- Modelled from the spec: process state is one of `Idle`, `Running`
(§3 "Process state"); `src/project.rs` compares against
`ProcessState::Running` (line 26). -/
inductive ProcessState where
  | Idle
  | Running
deriving DecidableEq, Inhabited

/-- Modelled from the spec: hat events gate scripts.  `ast::Hat` is external
(`netsblox_ast`); the source matches only `ast::Hat::OnFlag { .. }`
(line 139), and the spec names message-receive and key-press as the other
kinds (§4.6). -/
inductive Hat where
  | OnFlag
  | OnKey (key : String)
  | OnMessage (msg : String)
deriving DecidableEq, Inhabited

/-- Modelled from the spec: IEEE-754 double values as exercised by the claims,
split into NaN, the two infinities, and finite values (represented exactly as
rationals).  Floating-point rounding is outside the claims considered here;
only the zero-divisor behaviour of §8 ("0/0 → NaN; 1/0 → +∞; -1/0 → −∞") is
modelled. -/
inductive NumV where
  | nan
  | posInf
  | negInf
  | finite (q : ℚ)
deriving DecidableEq, Inhabited

/-- Modelled from the spec (§4.1): division follows the IEEE convention.
"Division by zero yields ±∞ (matching sign convention) or NaN for 0/0";
NaN propagates, ∞/∞ is NaN, finite/∞ is 0, ±∞/finite keeps the sign rule. -/
def NumV.div : NumV → NumV → NumV
  | NumV.nan, _ => NumV.nan
  | _, NumV.nan => NumV.nan
  | NumV.posInf, NumV.posInf => NumV.nan
  | NumV.posInf, NumV.negInf => NumV.nan
  | NumV.negInf, NumV.posInf => NumV.nan
  | NumV.negInf, NumV.negInf => NumV.nan
  | NumV.posInf, NumV.finite b => if 0 ≤ b then NumV.posInf else NumV.negInf
  | NumV.negInf, NumV.finite b => if 0 ≤ b then NumV.negInf else NumV.posInf
  | NumV.finite _, NumV.posInf => NumV.finite 0
  | NumV.finite _, NumV.negInf => NumV.finite 0
  | NumV.finite a, NumV.finite b =>
      if b = 0 then
        if a = 0 then NumV.nan
        else if 0 < a then NumV.posInf else NumV.negInf
      else NumV.finite (a / b)

/-- Modelled from the spec (§3 "Value"): a tagged variant over booleans,
numbers, strings and list handles.  The list handle is the address of a heap
cell in the `RefPool`; sharing a handle is the model of pointer equality of
cells. -/
inductive Value where
  | bool (b : Bool)
  | number (n : NumV)
  | string (s : String)
  | list (handle : Nat)
deriving DecidableEq, Inhabited

/-- Modelled from the spec (§4.1): the result type of `Value::identity` —
"for lists, the cell address; for scalars, a value-derived tag such that equal
scalars share identity". -/
inductive Identity where
  | cell (handle : Nat)
  | boolTag (b : Bool)
  | numTag (n : NumV)
  | strTag (s : String)
deriving DecidableEq, Inhabited

/-- Modelled from the spec (§4.1): `Value::identity`. -/
def Value.identity : Value → Identity
  | Value.list h => Identity.cell h
  | Value.bool b => Identity.boolTag b
  | Value.number n => Identity.numTag n
  | Value.string s => Identity.strTag s

/-- Modelled from the spec (§2, §4.1): the `RefPool` owns the heap cells of
lists; a cell is addressed by its index and holds the list's elements. -/
abbrev RefPool := List (List Value)

/-- Modelled from the spec: a fresh pool (`RefPool::new`, `project.rs`
line 92). -/
def RefPool.new : RefPool := []

/-- Modelled from the spec (§3): a `SymbolTable` is an ordered mapping from
names to value cells.  Cell sharing plays no role in the claims settled here,
so an entry is a plain name/value pair. -/
abbrev SymbolTable := List (String × Value)

/-- `Default::default()` for symbol tables (`project.rs` line 140): the empty
table. -/
def SymbolTable.default : SymbolTable := []

/-- Modelled from the spec (§3): `define(name, cell)` fails (is a no-op here)
if the name is already defined, otherwise appends the binding. -/
def SymbolTable.define (tbl : SymbolTable) (name : String) (v : Value) : SymbolTable :=
  if tbl.any (fun e => e.1 == name) then tbl else tbl ++ [(name, v)]

/-- Modelled from the spec: literal AST value nodes, the argument of
`Value::from_ast` (`netsblox_ast` is external). -/
inductive AstValue where
  | bool (b : Bool)
  | number (q : ℚ)
  | string (s : String)
  | list (elems : List AstValue)
deriving Inhabited

mutual
/-- Modelled from the spec (§4.1): `Value::from_ast(node, &pool)` constructs a
value from a literal AST node; lists recurse, allocating a fresh pool cell
whose address is the next free handle. -/
def Value.from_ast : AstValue → RefPool → Value × RefPool
  | AstValue.bool b, pool => (Value.bool b, pool)
  | AstValue.number q, pool => (Value.number (NumV.finite q), pool)
  | AstValue.string s, pool => (Value.string s, pool)
  | AstValue.list xs, pool =>
      let r := Value.from_ast_all xs pool
      (Value.list r.2.length, r.2 ++ [r.1])

/-- Helper of `Value.from_ast`: build the elements left to right, threading
the pool. -/
def Value.from_ast_all : List AstValue → RefPool → List Value × RefPool
  | [], pool => ([], pool)
  | x :: rest, pool =>
      let r := Value.from_ast x pool
      let rs := Value.from_ast_all rest r.2
      (r.1 :: rs.1, rs.2)
end

/-- Modelled from the spec: a variable declaration of the external AST
(`glob.trans_name`, `glob.value` in `project.rs` lines 94-96). -/
structure AstVarDecl where
  trans_name : String
  value : AstValue
deriving Inhabited

/-- Modelled from the spec: a script of the external AST; only its hat is
consumed by `project.rs` (line 112). -/
structure AstScript where
  hat : Option Hat
deriving Inhabited

/-- Modelled from the spec: a sprite of the external AST with its fields and
scripts (`project.rs` lines 103-117). -/
structure AstSprite where
  fields : List AstVarDecl
  scripts : List AstScript
deriving Inhabited

/-- Modelled from the spec: a role of the external AST — globals plus sprites
(`project.rs` lines 94, 103). -/
structure AstRole where
  globals : List AstVarDecl
  sprites : List AstSprite
deriving Inhabited

/-- Modelled from the spec (§3 "ByteCode"): the compiled instruction stream is
immutable and a pure function of the role; its content is opaque to the
scheduler, so it is represented by the role it was compiled from. -/
structure ByteCode where
  compiled_role : AstRole
deriving Inhabited

/-- Modelled from the spec (§3): the per-entity part of the locations sidecar
— `entities[i].scripts[j]` is the start PC of sprite `i`, script `j`. -/
structure EntityLocs where
  scripts : List Nat
deriving Inhabited

/-- Modelled from the spec (§3): the locations sidecar produced by
compilation. -/
structure Locations where
  entities : List EntityLocs
deriving Inhabited

/-- Helper of the modelled compiler: assign consecutive entry PCs to the
scripts of each sprite, one locations entry per sprite. -/
def compileLocs : Nat → List AstSprite → List EntityLocs
  | _, [] => []
  | base, sp :: rest =>
      { scripts := (List.range sp.scripts.length).map (fun j => base + j) } ::
        compileLocs (base + sp.scripts.length) rest

/-- Modelled from the spec: `ByteCode::compile(role)` (in `crate::bytecode`,
outside `src/`) — a pure function of the role returning the shared code and
the locations sidecar with one entry PC per sprite script. -/
def ByteCode.compile (role : AstRole) : ByteCode × Locations :=
  ({ compiled_role := role }, { entities := compileLocs 0 role.sprites })

/-- Modelled from the spec (§3, §4.3): the parts of a `Process` the scheduler
observes — the shared code, the call-depth bound, the Idle/Running state, and
the entry PC and locals supplied by the last `Process::initialize`.  The value
and call stacks and the warp counter are omitted: no claim settled here
mentions them. -/
structure Process where
  code : ByteCode
  max_call_depth : Nat
  state : ProcessState
  pc : Nat
  locals : SymbolTable
deriving Inhabited

/-- Modelled from the spec: `Process::new(code, max_call_depth)` — a fresh
idle process bound to the shared code (`project.rs` line 113). -/
def Process.new (code : ByteCode) (max_call_depth : Nat) : Process :=
  { code := code, max_call_depth := max_call_depth, state := ProcessState.Idle,
    pc := 0, locals := SymbolTable.default }

/-- Modelled from the spec (§4.3): `Process::initialize(entry_pc, locals)`
sets the PC and locals and transitions to `Running`. -/
def Process.init (p : Process) (entry_pc : Nat) (locals : SymbolTable) : Process :=
  { p with state := ProcessState.Running, pc := entry_pc, locals := locals }

/-- `Script` from `src/project.rs` lines 18-23: a hat, the owned process, the
entry PC, and the FIFO of pending invocation contexts (front at the head). -/
structure Script where
  hat : Option Hat
  process : Process
  start_pos : Nat
  context_queue : List SymbolTable
deriving Inhabited

/-- `Script::consume_context` from `src/project.rs` lines 25-31: if the
process is not running and a context is pending, pop the front context and
start the process on it at `start_pos`. -/
def Script.consume_context (s : Script) : Script :=
  if s.process.state ≠ ProcessState.Running then
    match s.context_queue with
    | [] => s
    | c :: rest =>
        { s with process := Process.init s.process s.start_pos c, context_queue := rest }
  else s

/-- `Script::schedule` from `src/project.rs` lines 32-38: push the context at
the back, try to consume one, and if the queue still exceeds `max_queue` drop
the back entry (`pop_back`). -/
def Script.schedule (s : Script) (max_queue : Nat) (context : SymbolTable) : Script :=
  let s1 := { s with context_queue := s.context_queue ++ [context] }
  let s2 := Script.consume_context s1
  if s2.context_queue.length > max_queue then
    { s2 with context_queue := s2.context_queue.dropLast }
  else s2

/-- `EntityKind` from `src/project.rs` lines 46-51. -/
inductive EntityKind where
  | Stage
  | Original
  | Clone
deriving DecidableEq, Inhabited

/-- `EntityContext` from `src/project.rs` lines 52-55. -/
structure EntityContext where
  fields : SymbolTable
  kind : EntityKind
deriving Inhabited

/-- `Entity` from `src/project.rs` lines 56-60. -/
structure Entity where
  context : EntityContext
  scripts : List Script
  script_queue_pos : Nat
deriving Inhabited

/-- `Entity::step` from `src/project.rs` lines 61-70.  `Script::step` is
`unimplemented!()` in the source (line 40), so its behaviour is the parameter
`f`, returning the scheduling hint and the updated script.  With no scripts
the entity yields immediately; otherwise the script at the cursor is stepped,
the cursor stays on `Normal` and advances modulo the script count on
`Yield`, and the inner result is returned unchanged. -/
def Entity.step (f : Script → StepType × Script) (e : Entity) : StepType × Entity :=
  if e.scripts.isEmpty then (StepType.Yield, e)
  else
    let r := f (e.scripts.getD e.script_queue_pos default)
    let e1 : Entity := { e with scripts := e.scripts.set e.script_queue_pos r.2 }
    match r.1 with
    | StepType.Normal => (r.1, e1)
    | StepType.Yield =>
        (r.1, { e1 with script_queue_pos := (e1.script_queue_pos + 1) % e1.scripts.length })

/-- `UserInput` from `src/project.rs` lines 75-77. -/
inductive UserInput where
  | ClickStart
deriving DecidableEq, Inhabited

/-- `GlobalContext` from `src/project.rs` lines 78-81. -/
structure GlobalContext where
  ref_pool : RefPool
  globals : SymbolTable
deriving Inhabited

/-- The `SlotMap` of the `slotmap` crate as used by `project.rs`: stable keys,
`get` by key, in-place update.  No code under `src/` ever removes an entry, so
an append-only list of option slots with the index as key is an exact model;
a stale key is one whose slot is `none` or out of range. -/
structure SlotMap (α : Type) where
  slots : List (Option α)
deriving Inhabited

/-- The empty slot map (`Default::default()`, `project.rs` line 101). -/
def SlotMap.empty {α : Type} : SlotMap α := ⟨[]⟩

/-- `SlotMap::get` / `get_mut` lookup: `none` for stale keys. -/
def SlotMap.get {α : Type} (m : SlotMap α) (k : Nat) : Option α :=
  m.slots.getD k none

/-- `SlotMap::insert`: returns the fresh key and the extended map. -/
def SlotMap.insert {α : Type} (m : SlotMap α) (a : α) : Nat × SlotMap α :=
  (m.slots.length, ⟨m.slots ++ [some a]⟩)

/-- Writing through a `get_mut` borrow: replace the slot at the key. -/
def SlotMap.set {α : Type} (m : SlotMap α) (k : Nat) (a : α) : SlotMap α :=
  ⟨m.slots.set k (some a)⟩

/-- `Project` from `src/project.rs` lines 82-89.  The declared `processes` /
`process_queue` fields are never initialised nor used by any method in the
snapshot and are omitted. -/
structure Project where
  context : GlobalContext
  entities : SlotMap Entity
  entity_queue : List Nat
  max_call_depth : Nat
deriving Inhabited

/-- The variable-definition loops of `Project::new` (`project.rs` lines 94-96
and 104-107): define each declaration's translated name to the value built by
`Value::from_ast`, threading the pool. -/
def defineVars : List AstVarDecl → SymbolTable → RefPool → SymbolTable × RefPool
  | [], tbl, pool => (tbl, pool)
  | v :: rest, tbl, pool =>
      let vp := Value.from_ast v.value pool
      defineVars rest (SymbolTable.define tbl v.trans_name vp.1) vp.2

/-- The script-building loop of `Project::new` (`project.rs` lines 109-117):
one `Script` per AST script zipped with its compiled entry PC, each with a
fresh process sharing the compiled code and an empty context queue. -/
def mkScripts (code : ByteCode) (d : Nat) (sprite : AstSprite) (locs : EntityLocs) :
    List Script :=
  (sprite.scripts.zip locs.scripts).map (fun sl =>
    { hat := sl.1.hat, process := Process.new code d, start_pos := sl.2,
      context_queue := [] })

/-- The entity-building loop of `Project::new` (`project.rs` lines 103-127):
for each enumerated sprite (zipped with its locations entry) build the field
table, the scripts, and the entity — kind `Stage` at index 0, `Original`
otherwise, cursor 0 — insert it into the slot map and push its key at the
back of the rotation queue. -/
def buildEntities (code : ByteCode) (d : Nat) :
    Nat → List (AstSprite × EntityLocs) → SlotMap Entity → List Nat → RefPool →
      SlotMap Entity × List Nat × RefPool
  | _, [], es, q, pool => (es, q, pool)
  | i, (sprite, locs) :: rest, es, q, pool =>
      let fp := defineVars sprite.fields SymbolTable.default pool
      let ent : Entity :=
        { context := { fields := fp.1,
                       kind := if i = 0 then EntityKind.Stage else EntityKind.Original },
          scripts := mkScripts code d sprite locs,
          script_queue_pos := 0 }
      let ins := SlotMap.insert es ent
      buildEntities code d (i + 1) rest ins.2 (q ++ [ins.1]) fp.2

/-- `Project::new` from `src/project.rs` lines 91-133: build globals from the
role, compile once, build one entity per sprite in order, and keep the entity
keys in the rotation deque in construction order. -/
def Project.new (role : AstRole) (max_call_depth : Nat) : Project :=
  let gs := defineVars role.globals SymbolTable.default RefPool.new
  let cl := ByteCode.compile role
  let built := buildEntities cl.1 max_call_depth 0 (role.sprites.zip cl.2.entities)
    SlotMap.empty [] gs.2
  { context := { ref_pool := built.2.2, globals := gs.1 },
    entities := built.1, entity_queue := built.2.1, max_call_depth := max_call_depth }

/-- `Project::input` from `src/project.rs` lines 134-146: on `ClickStart`,
every script whose hat is `OnFlag` is scheduled with `max_queue = 0` and an
empty context table; all other scripts are untouched. -/
def Project.input (p : Project) (i : UserInput) : Project :=
  match i with
  | UserInput.ClickStart =>
      { p with entities := ⟨p.entities.slots.map (fun slot => slot.map (fun e =>
          { e with scripts := e.scripts.map (fun s =>
              match s.hat with
              | some Hat.OnFlag => Script.schedule s 0 SymbolTable.default
              | _ => s) }))⟩ }

/-- The key-popping loop of `Project::step` (`project.rs` lines 148-156): pop
front keys, silently pruning stale ones, until one resolves to a live entity
or the deque runs out. -/
def popLive (entities : SlotMap Entity) : List Nat → Option (Nat × Entity × List Nat)
  | [] => none
  | k :: rest =>
      match entities.get k with
      | none => popLive entities rest
      | some e => some (k, e, rest)

/-- `Project::step` from `src/project.rs` lines 147-162.  The source
early-returns `()` when no key resolves (line 150) while declaring
`-> StepType`; that idle-equivalent outcome is modelled as `none`.  When a key
resolves, the entity is stepped once; on `Normal` the key is pushed back at
the front, on `Yield` at the back. -/
def Project.step (f : Script → StepType × Script) (p : Project) :
    Option StepType × Project :=
  match popLive p.entities p.entity_queue with
  | none => (none, { p with entity_queue := [] })
  | some (k, e, rest) =>
      let r := Entity.step f e
      let p1 : Project := { p with entities := SlotMap.set p.entities k r.2 }
      match r.1 with
      | StepType.Normal => (some r.1, { p1 with entity_queue := k :: rest })
      | StepType.Yield => (some r.1, { p1 with entity_queue := rest ++ [k] })

/-- Scheduling the same script repeatedly: fold `Script::schedule` with a
fixed bound over a list of contexts. -/
def scheduleSeq (M : Nat) (cs : List SymbolTable) (s : Script) : Script :=
  cs.foldl (fun t c => Script.schedule t M c) s

/-- One step around a self-referential cycle (§4.1, §8 "Cycle identity"):
from a list value, read element `k` of its pool cell; scalars are left in
place.  Iterating this is the "round-trip" of the claim. -/
def cycleFollow (pool : RefPool) (k : Nat) : Value → Value
  | Value.list h => (pool.getD h []).getD k default
  | v => v

/-! ## List and slot-map helper lemmas -/

lemma getD_append_left {α : Type} (l₁ l₂ : List α) (k : Nat) (d : α) (h : k < l₁.length) :
    (l₁ ++ l₂).getD k d = l₁.getD k d := by
  simp [List.getD_eq_getElem?_getD, List.getElem?_append_left h]

lemma getD_append_len {α : Type} (l : List α) (a d : α) :
    (l ++ [a]).getD l.length d = a := by
  simp [List.getD_eq_getElem?_getD, List.getElem?_concat_length]

lemma getD_of_len_le {α : Type} (l : List α) (k : Nat) (d : α) (h : l.length ≤ k) :
    l.getD k d = d := by
  simp [List.getD_eq_getElem?_getD, List.getElem?_eq_none h]

lemma getD_map_lt {α β : Type} (f : α → β) (l : List α) (k : Nat) (d : α) (d2 : β)
    (h : k < l.length) : (l.map f).getD k d2 = f (l.getD k d) := by
  simp only [List.getD_eq_getElem?_getD, List.getElem?_map]
  rw [List.getElem?_eq_getElem h]
  simp

lemma getD_map_opt {α β : Type} (g : α → β) (l : List (Option α)) (k : Nat) :
    (l.map (Option.map g)).getD k none = Option.map g (l.getD k none) := by
  induction l generalizing k with
  | nil => simp
  | cons a t ih =>
      cases k with
      | zero => simp
      | succ k => simpa using ih k

lemma getD_zip_lt {α β : Type} (l₁ : List α) (l₂ : List β) (k : Nat) (d₁ : α) (d₂ : β)
    (h₁ : k < l₁.length) (h₂ : k < l₂.length) :
    (l₁.zip l₂).getD k (d₁, d₂) = (l₁.getD k d₁, l₂.getD k d₂) := by
  induction l₁ generalizing l₂ k with
  | nil => simp at h₁
  | cons a t ih =>
      cases l₂ with
      | nil => simp at h₂
      | cons b t2 =>
          cases k with
          | zero => simp
          | succ k =>
              simp only [List.zip_cons_cons, List.getD_cons_succ]
              exact ih t2 k (by simpa using h₁) (by simpa using h₂)

lemma head?_dropLast_of_two_le {α : Type} (l : List α) (h : 2 ≤ l.length) :
    l.dropLast.head? = l.head? := by
  match l with
  | [] => simp at h
  | [a] => simp at h
  | a :: b :: t => simp [List.dropLast]

lemma slotmap_get_insert {α : Type} (es : SlotMap α) (a : α) (k : Nat) :
    SlotMap.get (SlotMap.insert es a).2 k =
      if k = es.slots.length then some a else SlotMap.get es k := by
  by_cases h : k = es.slots.length
  · subst h
    simp [SlotMap.get, SlotMap.insert, getD_append_len]
  · rcases Nat.lt_or_ge k es.slots.length with hlt | hge
    · simp only [SlotMap.get, SlotMap.insert, if_neg h]
      exact getD_append_left _ _ _ _ hlt
    · have hge2 : es.slots.length < k := lt_of_le_of_ne hge (fun hh => h hh.symm)
      simp only [SlotMap.get, SlotMap.insert, if_neg h]
      rw [getD_of_len_le _ _ _ (by simpa using hge2),
        getD_of_len_le _ _ _ (le_of_lt hge2)]

/-! ## Script queue lemmas (C1, C4) -/

lemma consume_len_le (s : Script) :
    (Script.consume_context s).context_queue.length ≤ s.context_queue.length := by
  unfold Script.consume_context
  split
  · cases h : s.context_queue with
    | nil => simp [h]
    | cons c rest => simp [h]
  · exact Nat.le_refl _

lemma schedule_len_le (s : Script) (M : Nat) (c : SymbolTable) :
    (Script.schedule s M c).context_queue.length ≤ max s.context_queue.length M := by
  have h1 := consume_len_le { s with context_queue := s.context_queue ++ [c] }
  simp only [List.length_append, List.length_singleton] at h1
  simp only [Script.schedule]
  split
  · rename_i hcond
    simp only [List.length_dropLast]
    omega
  · rename_i hcond
    simp only [gt_iff_lt, not_lt] at hcond
    omega

lemma consume_append_shape (s : Script) (c : SymbolTable) :
    (Script.consume_context { s with context_queue := s.context_queue ++ [c] }).context_queue
        = []
    ∨ ∃ pre,
        (Script.consume_context
            { s with context_queue := s.context_queue ++ [c] }).context_queue
          = pre ++ [c] := by
  unfold Script.consume_context
  split
  · cases hq : s.context_queue with
    | nil => left; simp [hq]
    | cons a q2 => right; exact ⟨q2, by simp [hq]⟩
  · right; exact ⟨s.context_queue, rfl⟩

/-! ## C1: queue bound and tail-drop -/

/-- C1: for every script and bound `M`, any sequence of `schedule(M, ·)` calls
keeps `context_queue.len() ≤ M + 1`; and whenever the overflow guard fires,
the dropped context is the back of the queue — the most recently enqueued
context, namely the one passed to the current call — while the front entry
survives whenever the queue held an older still-pending context. -/
theorem script_schedule_queue_bound_and_tail_drop (M : Nat) :
    (∀ (s : Script) (cs : List SymbolTable),
        s.context_queue.length ≤ M + 1 →
        (scheduleSeq M cs s).context_queue.length ≤ M + 1)
    ∧ (∀ (s : Script) (c : SymbolTable),
        M < (Script.consume_context
              { s with context_queue := s.context_queue ++ [c] }).context_queue.length →
          (Script.schedule s M c).context_queue
              = (Script.consume_context
                  { s with context_queue := s.context_queue ++ [c] }).context_queue.dropLast
          ∧ (Script.consume_context
              { s with context_queue := s.context_queue ++ [c] }).context_queue.getLast?
                = some c
          ∧ (2 ≤ (Script.consume_context
                    { s with context_queue := s.context_queue ++ [c] }).context_queue.length →
              (Script.schedule s M c).context_queue.head?
                = (Script.consume_context
                    { s with context_queue := s.context_queue ++ [c] }).context_queue.head?)) := by
  constructor
  · intro s cs
    induction cs generalizing s with
    | nil => intro h; simpa [scheduleSeq] using h
    | cons c rest ih =>
        intro h
        have hstep := schedule_len_le s M c
        have hb : (Script.schedule s M c).context_queue.length ≤ M + 1 := by omega
        simpa [scheduleSeq] using ih (Script.schedule s M c) hb
  · intro s c hov
    have hsched : (Script.schedule s M c).context_queue
        = (Script.consume_context
            { s with context_queue := s.context_queue ++ [c] }).context_queue.dropLast := by
      simp only [Script.schedule]
      rw [if_pos hov]
    refine ⟨hsched, ?_, ?_⟩
    · rcases consume_append_shape s c with hnil | ⟨pre, hpre⟩
      · rw [hnil] at hov; simp at hov
      · rw [hpre]; exact List.getLast?_concat pre
    · intro h2
      rw [hsched]
      exact head?_dropLast_of_two_le _ h2

/-- Sample script for the C1 witness: running process, one pending context. -/
def c1s : Script :=
  { hat := none,
    process := { code := ⟨⟨[], []⟩⟩, max_call_depth := 0,
                 state := ProcessState.Running, pc := 0, locals := [] },
    start_pos := 0,
    context_queue := [SymbolTable.default] }

/-- Witness for C1 at `M = 0`, a running script holding one pending context,
and two further schedules: the bound holds, the overflow fires, and the
dropped context is the back. -/
theorem script_schedule_queue_bound_and_tail_drop_witness :
    (c1s.context_queue.length ≤ 0 + 1)
    ∧ ((scheduleSeq 0 [SymbolTable.default, SymbolTable.default] c1s).context_queue.length
        ≤ 0 + 1)
    ∧ (0 < (Script.consume_context
            { c1s with
              context_queue := c1s.context_queue ++ [SymbolTable.default] }).context_queue.length)
    ∧ ((Script.schedule c1s 0 SymbolTable.default).context_queue
        = (Script.consume_context
            { c1s with
              context_queue := c1s.context_queue ++ [SymbolTable.default] }).context_queue.dropLast) := by
  have h := script_schedule_queue_bound_and_tail_drop 0
  exact ⟨by decide,
    h.1 c1s [SymbolTable.default, SymbolTable.default] (by decide),
    by decide,
    (h.2 c1s SymbolTable.default (by decide)).1⟩

/-! ## C4: schedule(0, c) on an idle script with an empty queue -/

/-- C4: `schedule(0, c)` on a script whose process is not running and whose
queue is empty does not drop the context: the process is started on it at
`start_pos` (it becomes the in-flight invocation) and the queue stays
empty. -/
theorem script_schedule_zero_empty_consumes (s : Script) (c : SymbolTable)
    (hrun : s.process.state ≠ ProcessState.Running) (hq : s.context_queue = []) :
    (Script.schedule s 0 c).context_queue = []
    ∧ (Script.schedule s 0 c).process.state = ProcessState.Running
    ∧ (Script.schedule s 0 c).process.pc = s.start_pos
    ∧ (Script.schedule s 0 c).process.locals = c := by
  simp [Script.schedule, Script.consume_context, Process.init, hq, hrun]

/-- Sample idle script for the C4 witness. -/
def c4s : Script :=
  { hat := none,
    process := { code := ⟨⟨[], []⟩⟩, max_call_depth := 0,
                 state := ProcessState.Idle, pc := 7, locals := [] },
    start_pos := 42,
    context_queue := [] }

/-- Sample context for the C4 witness. -/
def c4c : SymbolTable := [(("n"), Value.bool true)]

/-- Witness for C4: the idle sample script consumes the scheduled context. -/
theorem script_schedule_zero_empty_consumes_witness :
    (Script.schedule c4s 0 c4c).context_queue = []
    ∧ (Script.schedule c4s 0 c4c).process.state = ProcessState.Running
    ∧ (Script.schedule c4s 0 c4c).process.pc = c4s.start_pos
    ∧ (Script.schedule c4s 0 c4c).process.locals = c4c :=
  script_schedule_zero_empty_consumes c4s c4c (by decide) rfl

/-! ## C5: Entity::step -/

/-- C5: an entity with no scripts yields immediately; otherwise the script at
the cursor is stepped and its result returned unchanged, the cursor staying
put on `Normal` and advancing by one modulo the script count on `Yield`. -/
theorem entity_step_spec (f : Script → StepType × Script) (e : Entity) :
    (e.scripts = [] → Entity.step f e = (StepType.Yield, e))
    ∧ (e.scripts ≠ [] →
        (Entity.step f e).1 = (f (e.scripts.getD e.script_queue_pos default)).1
        ∧ (Entity.step f e).2.scripts
            = e.scripts.set e.script_queue_pos
                (f (e.scripts.getD e.script_queue_pos default)).2
        ∧ ((f (e.scripts.getD e.script_queue_pos default)).1 = StepType.Normal →
            (Entity.step f e).2.script_queue_pos = e.script_queue_pos)
        ∧ ((f (e.scripts.getD e.script_queue_pos default)).1 = StepType.Yield →
            (Entity.step f e).2.script_queue_pos
              = (e.script_queue_pos + 1) % e.scripts.length)) := by
  constructor
  · intro h
    simp [Entity.step, h]
  · intro h
    have hne : e.scripts.isEmpty = false := by
      simpa [List.isEmpty_iff] using h
    rcases hfr : f (e.scripts.getD e.script_queue_pos default) with ⟨r, s2⟩
    simp only [List.getD_eq_getElem?_getD] at hfr
    cases r with
    | Normal => simp [Entity.step, hne, hfr]
    | Yield => simp [Entity.step, hne, hfr]

/-- Sample script for the C5 witness. -/
def c5s : Script :=
  { hat := none, process := Process.new ⟨⟨[], []⟩⟩ 0, start_pos := 0, context_queue := [] }

/-- Sample one-script entity for the C5 witness. -/
def c5e : Entity :=
  { context := { fields := [], kind := EntityKind.Original },
    scripts := [c5s], script_queue_pos := 0 }

/-- Inner step behaviour returning `Normal` and leaving the script as is. -/
def stepNormalF : Script → StepType × Script := fun s => (StepType.Normal, s)

/-- Witness for C5 on a one-script entity whose inner step returns
`Normal`: the result is `Normal` and the cursor stays at 0. -/
theorem entity_step_spec_witness :
    (c5e.scripts ≠ [])
    ∧ (Entity.step stepNormalF c5e).1
        = (stepNormalF (c5e.scripts.getD c5e.script_queue_pos default)).1
    ∧ (Entity.step stepNormalF c5e).2.script_queue_pos = c5e.script_queue_pos := by
  have hne : c5e.scripts ≠ [] := List.cons_ne_nil c5s []
  have h := (entity_step_spec stepNormalF c5e).2 hne
  exact ⟨hne, h.1, h.2.2.1 rfl⟩

/-! ## C2: Project::step on a live front entity -/

/-- C2: when the front key of the rotation deque resolves to a live entity,
`Project::step` pops it, steps that entity exactly once, writes the stepped
entity back under the same key, and re-queues the key at the front on
`Normal` and at the back on `Yield`. -/
theorem project_step_live (f : Script → StepType × Script) (p : Project)
    (k : Nat) (e : Entity) (rest : List Nat)
    (hq : p.entity_queue = k :: rest) (he : SlotMap.get p.entities k = some e) :
    (Project.step f p).1 = some (Entity.step f e).1
    ∧ (Project.step f p).2.entities = SlotMap.set p.entities k (Entity.step f e).2
    ∧ (Project.step f p).2.context = p.context
    ∧ ((Entity.step f e).1 = StepType.Normal →
        (Project.step f p).2.entity_queue = k :: rest)
    ∧ ((Entity.step f e).1 = StepType.Yield →
        (Project.step f p).2.entity_queue = rest ++ [k]) := by
  cases hr : (Entity.step f e).1 with
  | Normal => simp [Project.step, popLive, hq, he, hr]
  | Yield => simp [Project.step, popLive, hq, he, hr]

/-- Sample entity for the C2 witness. -/
def c2e : Entity :=
  { context := { fields := [], kind := EntityKind.Stage },
    scripts := [], script_queue_pos := 0 }

/-- Sample one-entity project for the C2 witness. -/
def c2p : Project :=
  { context := { ref_pool := [], globals := [] },
    entities := ⟨[some c2e]⟩, entity_queue := [0], max_call_depth := 0 }

/-- Inner step behaviour returning `Yield` and leaving the script as is. -/
def stepYieldF : Script → StepType × Script := fun s => (StepType.Yield, s)

/-- Witness for C2: on the sample project the front key 0 is live, the step
result is the entity's result, and the `Yield` outcome moves the key to the
back. -/
theorem project_step_live_witness :
    (c2p.entity_queue = 0 :: ([] : List Nat))
    ∧ (SlotMap.get c2p.entities 0 = some c2e)
    ∧ (Project.step stepYieldF c2p).1 = some (Entity.step stepYieldF c2e).1
    ∧ ((Entity.step stepYieldF c2e).1 = StepType.Yield →
        (Project.step stepYieldF c2p).2.entity_queue = [] ++ [0]) := by
  have h := project_step_live stepYieldF c2p 0 c2e [] rfl rfl
  exact ⟨rfl, rfl, h.1, h.2.2.2.2⟩

/-! ## C3: Project::step with no live entity -/

lemma popLive_eq_none (es : SlotMap Entity) (q : List Nat)
    (h : ∀ k ∈ q, SlotMap.get es k = none) : popLive es q = none := by
  induction q with
  | nil => rfl
  | cons k rest ih =>
      have hk := h k (List.mem_cons_self k rest)
      simp only [popLive, hk]
      exact ih (fun k2 hk2 => h k2 (List.mem_cons_of_mem _ hk2))

/-- C3: when no key in the rotation deque resolves to a live entity (empty
deque or stale keys only), `Project::step` silently discards the stale keys,
steps nothing — entities, globals and the call-depth bound are unchanged, and
the outcome does not even depend on the inner step behaviour — and returns
the idle-equivalent result (`none`, modelling the source's bare early
return). -/
theorem project_step_idle (f : Script → StepType × Script) (p : Project)
    (h : ∀ k ∈ p.entity_queue, SlotMap.get p.entities k = none) :
    (Project.step f p).1 = none
    ∧ (Project.step f p).2.entities = p.entities
    ∧ (Project.step f p).2.context = p.context
    ∧ (Project.step f p).2.max_call_depth = p.max_call_depth
    ∧ (Project.step f p).2.entity_queue = []
    ∧ (∀ g, Project.step g p = Project.step f p) := by
  have hp := popLive_eq_none p.entities p.entity_queue h
  refine ⟨?_, ?_, ?_, ?_, ?_, ?_⟩
  · simp [Project.step, hp]
  · simp [Project.step, hp]
  · simp [Project.step, hp]
  · simp [Project.step, hp]
  · simp [Project.step, hp]
  · intro g
    simp [Project.step, hp]

/-- Sample project for the C3 witness: one destroyed slot and two stale keys
(one pointing at the dead slot, one out of range). -/
def c3p : Project :=
  { context := { ref_pool := [], globals := [] },
    entities := ⟨[none]⟩, entity_queue := [0, 5], max_call_depth := 3 }

/-- Witness for C3: on the stale-keys sample project the step is
idle-equivalent, changes nothing, and empties the deque. -/
theorem project_step_idle_witness :
    (Project.step stepYieldF c3p).1 = none
    ∧ (Project.step stepYieldF c3p).2.entities = c3p.entities
    ∧ (Project.step stepYieldF c3p).2.context = c3p.context
    ∧ (Project.step stepYieldF c3p).2.entity_queue = [] := by
  have h := project_step_idle stepYieldF c3p (by intro k hk; fin_cases hk <;> rfl)
  exact ⟨h.1, h.2.1, h.2.2.1, h.2.2.2.2.1⟩

/-! ## C6: Project::input(ClickStart) -/

lemma dispatch_eq_if (s : Script) :
    (match s.hat with
     | some Hat.OnFlag => Script.schedule s 0 SymbolTable.default
     | _ => s)
    = if s.hat = some Hat.OnFlag then Script.schedule s 0 SymbolTable.default else s := by
  cases hh : s.hat with
  | none => simp
  | some h => cases h <;> simp

/-- C6: `ClickStart` schedules, with `max_queue = 0` and the empty context
table, exactly the scripts whose hat is `OnFlag`, in every entity; scripts
with any other hat (or no hat) are unchanged, and so are the rotation queue,
the globals and every other entity component. -/
theorem project_input_clickstart (p : Project) (i : Nat) (e : Entity)
    (he : SlotMap.get p.entities i = some e) :
    (Project.input p UserInput.ClickStart).entity_queue = p.entity_queue
    ∧ (Project.input p UserInput.ClickStart).context = p.context
    ∧ (Project.input p UserInput.ClickStart).max_call_depth = p.max_call_depth
    ∧ SymbolTable.default = ([] : SymbolTable)
    ∧ ∃ e2, SlotMap.get (Project.input p UserInput.ClickStart).entities i = some e2
        ∧ e2.context = e.context
        ∧ e2.script_queue_pos = e.script_queue_pos
        ∧ e2.scripts.length = e.scripts.length
        ∧ ∀ j, j < e.scripts.length →
            e2.scripts.getD j default
              = (if (e.scripts.getD j default).hat = some Hat.OnFlag
                 then Script.schedule (e.scripts.getD j default) 0 SymbolTable.default
                 else e.scripts.getD j default) := by
  refine ⟨rfl, rfl, rfl, rfl, ?_⟩
  have hget : SlotMap.get (Project.input p UserInput.ClickStart).entities i
      = Option.map (fun e => { e with scripts := e.scripts.map (fun s =>
          match s.hat with
          | some Hat.OnFlag => Script.schedule s 0 SymbolTable.default
          | _ => s) } : Entity → Entity) (SlotMap.get p.entities i) := by
    simp only [Project.input, SlotMap.get]
    exact getD_map_opt _ _ _
  rw [he] at hget
  refine ⟨_, hget, rfl, rfl, by simp, ?_⟩
  intro j hj
  show (e.scripts.map (fun s =>
      match s.hat with
      | some Hat.OnFlag => Script.schedule s 0 SymbolTable.default
      | _ => s)).getD j default = _
  rw [getD_map_lt _ _ j default default hj]
  exact dispatch_eq_if _

/-- Sample `OnFlag` script for the C6 witness. -/
def c6sf : Script :=
  { hat := some Hat.OnFlag, process := Process.new ⟨⟨[], []⟩⟩ 0, start_pos := 0,
    context_queue := [] }

/-- Sample hatless script for the C6 witness. -/
def c6sn : Script :=
  { hat := none, process := Process.new ⟨⟨[], []⟩⟩ 0, start_pos := 1,
    context_queue := [] }

/-- Sample entity with one `OnFlag` and one hatless script. -/
def c6e : Entity :=
  { context := { fields := [], kind := EntityKind.Stage },
    scripts := [c6sf, c6sn], script_queue_pos := 0 }

/-- Sample project for the C6 witness. -/
def c6p : Project :=
  { context := { ref_pool := [], globals := [] },
    entities := ⟨[some c6e]⟩, entity_queue := [0], max_call_depth := 0 }

/-- Witness for C6 on the sample project: the queue is untouched and each of
the entity's scripts is scheduled exactly when its hat is `OnFlag`. -/
theorem project_input_clickstart_witness :
    (SlotMap.get c6p.entities 0 = some c6e)
    ∧ ((Project.input c6p UserInput.ClickStart).entity_queue = c6p.entity_queue)
    ∧ (∃ e2, SlotMap.get (Project.input c6p UserInput.ClickStart).entities 0 = some e2
        ∧ ∀ j, j < c6e.scripts.length →
            e2.scripts.getD j default
              = (if (c6e.scripts.getD j default).hat = some Hat.OnFlag
                 then Script.schedule (c6e.scripts.getD j default) 0 SymbolTable.default
                 else c6e.scripts.getD j default)) := by
  have h := project_input_clickstart c6p 0 c6e rfl
  obtain ⟨e2, hg, _, _, _, hj⟩ := h.2.2.2.2
  exact ⟨rfl, h.1, e2, hg, hj⟩

/-! ## C7: Project::new construction lemmas -/

lemma compileLocs_length : ∀ (l : List AstSprite) (b : Nat),
    (compileLocs b l).length = l.length := by
  intro l
  induction l with
  | nil => intro b; rfl
  | cons sp rest ih => intro b; simp [compileLocs, ih]

lemma compileLocs_getD_len : ∀ (l : List AstSprite) (b i : Nat), i < l.length →
    ((compileLocs b l).getD i default).scripts.length
      = (l.getD i default).scripts.length := by
  intro l
  induction l with
  | nil => intro b i hi; simp at hi
  | cons sp rest ih =>
      intro b i hi
      cases i with
      | zero => simp [compileLocs]
      | succ i =>
          simp only [compileLocs, List.getD_cons_succ]
          exact ih (b + sp.scripts.length) i (by simpa using hi)

lemma mkScripts_length (code : ByteCode) (d : Nat) (sprite : AstSprite)
    (locs : EntityLocs) :
    (mkScripts code d sprite locs).length
      = min sprite.scripts.length locs.scripts.length := by
  simp [mkScripts]

lemma mkScripts_getD (code : ByteCode) (d : Nat) (sprite : AstSprite)
    (locs : EntityLocs) (j : Nat) (hj : j < (mkScripts code d sprite locs).length) :
    (mkScripts code d sprite locs).getD j default
      = { hat := (sprite.scripts.getD j default).hat,
          process := Process.new code d,
          start_pos := locs.scripts.getD j 0,
          context_queue := [] } := by
  have hj2 : j < (sprite.scripts.zip locs.scripts).length := by
    simpa [mkScripts] using hj
  have hj3 : j < sprite.scripts.length := by
    rw [List.length_zip] at hj2; omega
  have hj4 : j < locs.scripts.length := by
    rw [List.length_zip] at hj2; omega
  simp only [mkScripts]
  rw [getD_map_lt _ _ j (default, 0) default hj2]
  rw [getD_zip_lt _ _ j default 0 hj3 hj4]

lemma buildEntities_spec (code : ByteCode) (d : Nat) :
    ∀ (l : List (AstSprite × EntityLocs)) (i : Nat) (es : SlotMap Entity)
      (q : List Nat) (pool : RefPool),
      ((buildEntities code d i l es q pool).1.slots.length = es.slots.length + l.length)
      ∧ ((buildEntities code d i l es q pool).2.1
          = q ++ (List.range l.length).map (fun t => es.slots.length + t))
      ∧ (∀ k, k < es.slots.length →
          SlotMap.get (buildEntities code d i l es q pool).1 k = SlotMap.get es k)
      ∧ (∀ t, t < l.length →
          ∃ flds, SlotMap.get (buildEntities code d i l es q pool).1 (es.slots.length + t)
            = some { context :=
                       { fields := flds,
                         kind := if i + t = 0 then EntityKind.Stage
                                 else EntityKind.Original },
                     scripts := mkScripts code d (l.getD t default).1 (l.getD t default).2,
                     script_queue_pos := 0 }) := by
  intro l
  induction l with
  | nil =>
      intro i es q pool
      refine ⟨by simp [buildEntities], by simp [buildEntities], ?_, ?_⟩
      · intro k _; rfl
      · intro t ht; simp at ht
  | cons hd rest ih =>
      intro i es q pool
      obtain ⟨sprite, locs⟩ := hd
      have hunf : buildEntities code d i ((sprite, locs) :: rest) es q pool
          = buildEntities code d (i + 1) rest
              ⟨es.slots ++ [some
                { context :=
                    { fields := (defineVars sprite.fields SymbolTable.default pool).1,
                      kind := if i = 0 then EntityKind.Stage else EntityKind.Original },
                  scripts := mkScripts code d sprite locs,
                  script_queue_pos := 0 }]⟩
              (q ++ [es.slots.length])
              (defineVars sprite.fields SymbolTable.default pool).2 := rfl
      have hrec := ih (i + 1)
        ⟨es.slots ++ [some
          { context :=
              { fields := (defineVars sprite.fields SymbolTable.default pool).1,
                kind := if i = 0 then EntityKind.Stage else EntityKind.Original },
            scripts := mkScripts code d sprite locs,
            script_queue_pos := 0 }]⟩
        (q ++ [es.slots.length])
        (defineVars sprite.fields SymbolTable.default pool).2
      obtain ⟨hlen, hq, hold, hnew⟩ := hrec
      simp only [List.length_append, List.length_singleton] at hlen hq hold hnew
      rw [hunf]
      refine ⟨?_, ?_, ?_, ?_⟩
      · rw [hlen]; simp; omega
      · rw [hq]
        have hmap : (List.range (rest.length + 1)).map (fun t => es.slots.length + t)
            = es.slots.length ::
                (List.range rest.length).map (fun t => es.slots.length + 1 + t) := by
          rw [List.range_succ_eq_map, List.map_cons, List.map_map]
          have hfun : ((fun t => es.slots.length + t) ∘ Nat.succ)
              = (fun t => es.slots.length + 1 + t) := by
            funext t
            simp only [Function.comp_apply]
            omega
          rw [hfun]
          simp
        simp only [List.length_cons, hmap]
        simp [List.append_assoc]
      · intro k hk
        have hk2 := hold k (by omega)
        rw [hk2]
        have hget := slotmap_get_insert es
          { context :=
              { fields := (defineVars sprite.fields SymbolTable.default pool).1,
                kind := if i = 0 then EntityKind.Stage else EntityKind.Original },
            scripts := mkScripts code d sprite locs,
            script_queue_pos := 0 } k
        simp only [SlotMap.insert] at hget
        rw [hget, if_neg (by omega)]
      · intro t ht
        cases t with
        | zero =>
            refine ⟨(defineVars sprite.fields SymbolTable.default pool).1, ?_⟩
            have hk2 := hold es.slots.length (by omega)
            have hget := slotmap_get_insert es
              { context :=
                  { fields := (defineVars sprite.fields SymbolTable.default pool).1,
                    kind := if i = 0 then EntityKind.Stage else EntityKind.Original },
                scripts := mkScripts code d sprite locs,
                script_queue_pos := 0 } es.slots.length
            simp only [SlotMap.insert] at hget
            simp only [Nat.add_zero]
            rw [hk2, hget]
            simp
        | succ t2 =>
            have ht2 : t2 < rest.length := by simpa using ht
            obtain ⟨flds, hf⟩ := hnew t2 ht2
            refine ⟨flds, ?_⟩
            have harith : es.slots.length + (t2 + 1) = es.slots.length + 1 + t2 := by omega
            rw [harith, hf]
            have harith2 : i + 1 + t2 = i + (t2 + 1) := by omega
            rw [harith2]
            simp

/-- C7: `Project::new` builds one entity per sprite in order — kind `Stage`
for the first sprite and `Original` for the rest, cursor 0 — with one script
per AST script carrying that script's compiled entry PC, its hat, a fresh
idle process sharing the role's compiled code, and an empty context queue;
and it inserts all entity keys into the rotation deque in construction
order. -/
theorem project_new_spec (role : AstRole) (d : Nat) :
    (Project.new role d).entity_queue = List.range role.sprites.length
    ∧ (Project.new role d).entities.slots.length = role.sprites.length
    ∧ (Project.new role d).max_call_depth = d
    ∧ ∀ i, i < role.sprites.length →
        ∃ e, SlotMap.get (Project.new role d).entities i = some e
          ∧ e.context.kind = (if i = 0 then EntityKind.Stage else EntityKind.Original)
          ∧ e.script_queue_pos = 0
          ∧ e.scripts.length = (role.sprites.getD i default).scripts.length
          ∧ (∀ j, j < e.scripts.length →
              (e.scripts.getD j default).hat
                  = ((role.sprites.getD i default).scripts.getD j default).hat
              ∧ (e.scripts.getD j default).start_pos
                  = ((ByteCode.compile role).2.entities.getD i default).scripts.getD j 0
              ∧ (e.scripts.getD j default).process
                  = Process.new (ByteCode.compile role).1 d
              ∧ (e.scripts.getD j default).context_queue = []) := by
  obtain ⟨hlen, hq, _, hnew⟩ := buildEntities_spec (ByteCode.compile role).1 d
    (role.sprites.zip (ByteCode.compile role).2.entities) 0 SlotMap.empty []
    (defineVars role.globals SymbolTable.default RefPool.new).2
  have hloclen : (ByteCode.compile role).2.entities.length = role.sprites.length :=
    compileLocs_length role.sprites 0
  have hzl : (role.sprites.zip (ByteCode.compile role).2.entities).length
      = role.sprites.length := by
    rw [List.length_zip, hloclen, Nat.min_self]
  have hent : (Project.new role d).entities
      = (buildEntities (ByteCode.compile role).1 d 0
          (role.sprites.zip (ByteCode.compile role).2.entities) SlotMap.empty []
          (defineVars role.globals SymbolTable.default RefPool.new).2).1 := rfl
  have hque : (Project.new role d).entity_queue
      = (buildEntities (ByteCode.compile role).1 d 0
          (role.sprites.zip (ByteCode.compile role).2.entities) SlotMap.empty []
          (defineVars role.globals SymbolTable.default RefPool.new).2).2.1 := rfl
  refine ⟨?_, ?_, rfl, ?_⟩
  · rw [hque, hq, hzl]
    simp [SlotMap.empty]
  · rw [hent, hlen, hzl]
    simp [SlotMap.empty]
  · intro i hi
    have hi2 : i < (role.sprites.zip (ByteCode.compile role).2.entities).length := by
      rw [hzl]; exact hi
    obtain ⟨flds, hf⟩ := hnew i hi2
    have hzd : (role.sprites.zip (ByteCode.compile role).2.entities).getD i default
        = (role.sprites.getD i default,
           (ByteCode.compile role).2.entities.getD i default) :=
      getD_zip_lt _ _ i default default hi (by rw [hloclen]; exact hi)
    rw [hzd] at hf
    simp only [SlotMap.empty, List.length_nil, Nat.zero_add] at hf
    refine ⟨{ context :=
                { fields := flds,
                  kind := if i = 0 then EntityKind.Stage else EntityKind.Original },
              scripts := mkScripts (ByteCode.compile role).1 d
                (role.sprites.getD i default)
                ((ByteCode.compile role).2.entities.getD i default),
              script_queue_pos := 0 }, ?_, rfl, rfl, ?_, ?_⟩
    · rw [hent]
      exact hf
    · have hlc : ((ByteCode.compile role).2.entities.getD i default).scripts.length
          = (role.sprites.getD i default).scripts.length :=
        compileLocs_getD_len role.sprites 0 i hi
      rw [mkScripts_length, hlc, Nat.min_self]
    · intro j hj
      rw [mkScripts_getD _ _ _ _ j hj]
      exact ⟨rfl, rfl, rfl, rfl⟩

/-- Sample one-sprite role for the C7 witness. -/
def c7role : AstRole :=
  { globals := [],
    sprites := [{ fields := [], scripts := [{ hat := some Hat.OnFlag }] }] }

/-- Witness for C7 on the one-sprite sample role: the rotation deque is the
key range and the single entity exists with kind `Stage` and cursor 0. -/
theorem project_new_spec_witness :
    (0 < c7role.sprites.length)
    ∧ (Project.new c7role 9).entity_queue = List.range c7role.sprites.length
    ∧ ∃ e, SlotMap.get (Project.new c7role 9).entities 0 = some e
        ∧ e.context.kind = (if 0 = 0 then EntityKind.Stage else EntityKind.Original)
        ∧ e.script_queue_pos = 0 := by
  have h := project_new_spec c7role 9
  obtain ⟨e, hg, hk, hp, _, _⟩ := h.2.2.2 0 (by decide)
  exact ⟨by decide, h.1, e, hg, hk, hp⟩

/-! ## C10: cursor invariant -/

lemma buildEntities_pos_zero (code : ByteCode) (d : Nat) :
    ∀ (l : List (AstSprite × EntityLocs)) (i : Nat) (es : SlotMap Entity)
      (q : List Nat) (pool : RefPool),
      (∀ k e, SlotMap.get es k = some e → e.script_queue_pos = 0) →
      ∀ k e, SlotMap.get (buildEntities code d i l es q pool).1 k = some e →
        e.script_queue_pos = 0 := by
  intro l
  induction l with
  | nil => intro i es q pool hinv; exact hinv
  | cons hd rest ih =>
      intro i es q pool hinv
      obtain ⟨sprite, locs⟩ := hd
      refine ih (i + 1) _ _ _ ?_
      intro k e hk
      rw [slotmap_get_insert] at hk
      by_cases hcase : k = es.slots.length
      · rw [if_pos hcase] at hk
        cases hk
        rfl
      · rw [if_neg hcase] at hk
        exact hinv k e hk

/-- C10: every entity's cursor satisfies `script_queue_pos < scripts.len()`
whenever `scripts` is non-empty: at construction the cursor is 0, and
`Entity::step` preserves the bound (it also preserves the script count);
consequently the indexing in `Entity::step` is in bounds, and with no scripts
the method returns `Yield` without indexing. -/
theorem entity_cursor_invariant :
    (∀ (role : AstRole) (d : Nat) (k : Nat) (e : Entity),
        SlotMap.get (Project.new role d).entities k = some e →
          e.script_queue_pos = 0)
    ∧ (∀ (f : Script → StepType × Script) (e : Entity),
        e.scripts ≠ [] → e.script_queue_pos < e.scripts.length →
          (Entity.step f e).2.script_queue_pos < (Entity.step f e).2.scripts.length
          ∧ (Entity.step f e).2.scripts.length = e.scripts.length)
    ∧ (∀ (f : Script → StepType × Script) (e : Entity), e.scripts = [] →
        Entity.step f e = (StepType.Yield, e))
    ∧ (∀ (e : Entity), e.script_queue_pos < e.scripts.length →
        e.scripts.get? e.script_queue_pos ≠ none) := by
  refine ⟨?_, ?_, ?_, ?_⟩
  · intro role d k e hk
    refine buildEntities_pos_zero (ByteCode.compile role).1 d
      (role.sprites.zip (ByteCode.compile role).2.entities) 0 SlotMap.empty []
      (defineVars role.globals SymbolTable.default RefPool.new).2 ?_ k e hk
    intro k2 e2 hk2
    simp [SlotMap.get, SlotMap.empty] at hk2
  · intro f e hne hlt
    have hbe : e.scripts.isEmpty = false := by
      simpa [List.isEmpty_iff] using hne
    have hpos : 0 < e.scripts.length := List.length_pos.mpr hne
    rcases hfr : f (e.scripts.getD e.script_queue_pos default) with ⟨r, s2⟩
    simp only [List.getD_eq_getElem?_getD] at hfr
    cases r with
    | Normal =>
        constructor
        · simpa [Entity.step, hbe, hfr] using hlt
        · simp [Entity.step, hbe, hfr]
    | Yield =>
        constructor
        · have hred : (Entity.step f e).2.script_queue_pos
                = (e.script_queue_pos + 1) % e.scripts.length
              ∧ (Entity.step f e).2.scripts.length = e.scripts.length := by
            simp [Entity.step, hbe, hfr]
          rw [hred.1, hred.2]
          exact Nat.mod_lt _ hpos
        · simp [Entity.step, hbe, hfr]
  · intro f e h
    simp [Entity.step, h]
  · intro e hlt
    rw [List.get?_eq_getElem?, List.getElem?_eq_getElem hlt]
    exact Option.some_ne_none _

/-- Sample role for the C10 witness: one sprite with no scripts. -/
def c10role : AstRole :=
  { globals := [], sprites := [{ fields := [], scripts := [] }] }

/-- The entity `Project::new` builds from the sample role. -/
def c10ent : Entity :=
  { context := { fields := [], kind := EntityKind.Stage },
    scripts := [], script_queue_pos := 0 }

/-- Sample one-script entity with cursor 0 for the C10 witness. -/
def c10e1 : Entity :=
  { context := { fields := [], kind := EntityKind.Original },
    scripts := [c5s], script_queue_pos := 0 }

/-- Witness for C10: the constructed sample entity has cursor 0; one step of
a one-script entity keeps the cursor in bounds; a scriptless entity yields
unchanged. -/
theorem entity_cursor_invariant_witness :
    (SlotMap.get (Project.new c10role 2).entities 0 = some c10ent)
    ∧ c10ent.script_queue_pos = 0
    ∧ ((Entity.step stepYieldF c10e1).2.script_queue_pos
        < (Entity.step stepYieldF c10e1).2.scripts.length)
    ∧ (Entity.step stepYieldF c10ent = (StepType.Yield, c10ent))
    ∧ (c10e1.scripts.get? c10e1.script_queue_pos ≠ none) := by
  have h := entity_cursor_invariant
  have hget : SlotMap.get (Project.new c10role 2).entities 0 = some c10ent := rfl
  exact ⟨hget, h.1 c10role 2 0 c10ent hget,
    (h.2.1 stepYieldF c10e1 (List.cons_ne_nil c5s []) (by decide)).1,
    h.2.2.1 stepYieldF c10ent rfl,
    h.2.2.2 c10e1 (by decide)⟩

/-! ## C8: cycle identity -/

/-- C8: for a list value whose element `k` is the list itself (the element
holds the same pool handle, i.e. is pointer-equal to the containing list),
the element's identity equals the list's identity, and following the cycle
any number of times always observes the same identity. -/
theorem list_cycle_identity_stable (pool : RefPool) (h k : Nat)
    (hself : (pool.getD h []).getD k default = Value.list h) :
    ((pool.getD h []).getD k default).identity = (Value.list h).identity
    ∧ ∀ n, (Nat.iterate (cycleFollow pool k) n (Value.list h)).identity
        = (Value.list h).identity := by
  have hstep : cycleFollow pool k (Value.list h) = Value.list h := by
    simpa [cycleFollow] using hself
  constructor
  · rw [hself]
  · intro n
    have hfix : ∀ m, Nat.iterate (cycleFollow pool k) m (Value.list h) = Value.list h := by
      intro m
      induction m with
      | zero => rfl
      | succ m ih =>
          rw [Function.iterate_succ_apply, hstep]
          exact ih
    rw [hfix n]

/-- Witness for C8 on the one-cell pool whose single list contains itself at
index 0: the identity is stable through five round-trips. -/
theorem list_cycle_identity_stable_witness :
    ((([[Value.list 0]] : RefPool).getD 0 []).getD 0 default = Value.list 0)
    ∧ ((([[Value.list 0]] : RefPool).getD 0 []).getD 0 default).identity
        = (Value.list 0).identity
    ∧ (Nat.iterate (cycleFollow ([[Value.list 0]] : RefPool) 0) 5
        (Value.list 0)).identity = (Value.list 0).identity := by
  have h := list_cycle_identity_stable [[Value.list 0]] 0 0 rfl
  exact ⟨rfl, h.1, h.2 5⟩

/-! ## C9: division at zero -/

/-- C9: division of number values follows the IEEE convention at zero —
`0/0` is NaN, a positive number divided by zero is `+∞`, and a negative
number divided by zero is `-∞`. -/
theorem numv_div_zero_ieee (a b : ℚ) (ha : 0 < a) (hb : b < 0) :
    NumV.div (NumV.finite 0) (NumV.finite 0) = NumV.nan
    ∧ NumV.div (NumV.finite a) (NumV.finite 0) = NumV.posInf
    ∧ NumV.div (NumV.finite b) (NumV.finite 0) = NumV.negInf := by
  refine ⟨by simp [NumV.div], ?_, ?_⟩
  · simp [NumV.div, ha.ne', ha]
  · simp [NumV.div, hb.ne, not_lt.mpr hb.le]

/-- Witness for C9 at `1/0` and `(-1)/0`. -/
theorem numv_div_zero_ieee_witness :
    ((0 : ℚ) < 1) ∧ ((-1 : ℚ) < 0)
    ∧ NumV.div (NumV.finite 0) (NumV.finite 0) = NumV.nan
    ∧ NumV.div (NumV.finite 1) (NumV.finite 0) = NumV.posInf
    ∧ NumV.div (NumV.finite (-1)) (NumV.finite 0) = NumV.negInf := by
  have h := numv_div_zero_ieee 1 (-1) (by norm_num) (by norm_num)
  exact ⟨by norm_num, by norm_num, h.1, h.2.1, h.2.2⟩
